import Mathlib

/-!
Verification development for the filesystem abstraction layer
(python/pyarrow/filesystem.py): an abstract filesystem interface with a
local backend, an object-store (S3) adapter with a directory-walk
emulator, a backend resolver and a URI/path resolver.

The Python source is embedded shallowly: pure helpers become Lean
functions, the external collaborators (the s3fs client's listing calls,
the host OS primitives, the stdlib URI parser) are modelled explicitly —
the client listing as a function parameter, the OS and URI collaborators
by definitions that follow their documented behaviour.  Fallible calls
return Option or Except.
-/

/- ===== String helpers ===== -/

/-- Final path component: models posixpath.split(s)[1], the suffix of s
after its last slash (empty when s ends in a slash). -/
def posixBasename (s : String) : String :=
  String.mk (s.toList.foldl (fun acc c => if c = '/' then [] else acc ++ [c]) [])

/-- Lexicographic comparison of char lists by code point, as Python
compares strings. -/
def charListLe : List Char → List Char → Bool
  | [], _ => true
  | _ :: _, [] => false
  | a :: as, b :: bs =>
    if a.toNat < b.toNat then true
    else if b.toNat < a.toNat then false
    else charListLe as bs

/-- Python string comparison a <= b. -/
def pyStrLe (a b : String) : Bool := charListLe a.toList b.toList

/-- Python string comparison as a relation, for use with insertion
sort. -/
def pyLeRel (a b : String) : Prop := pyStrLe a b = true

instance : DecidableRel pyLeRel := fun a b => Bool.decEq (pyStrLe a b) true

/-- Models the Python builtin sorted() on a list of strings. -/
def pySorted (l : List String) : List String := List.insertionSort pyLeRel l

/-- Removes every occurrence of "s3://" from a character list, scanning
left to right without overlap, as Python str.replace does. -/
def removeS3Scheme : List Char → List Char
  | 's' :: '3' :: ':' :: '/' :: '/' :: rest => removeS3Scheme rest
  | c :: rest => c :: removeS3Scheme rest
  | [] => []

/-- Translates _sanitize_s3 (filesystem.py lines 376-380): when the path
starts with "s3://" the call path.replace removes every occurrence of
that substring; otherwise the path is returned unchanged. -/
def _sanitize_s3 (path : String) : String :=
  if path.toList.take 5 = ([ 's', '3', ':', '/', '/' ]) then
    String.mk (removeS3Scheme path.toList)
  else path

/- ===== S3FSWrapper: isdir / isfile ===== -/

/-- Translates S3FSWrapper.isdir (filesystem.py lines 322-332).  The
wrapped s3fs client's ls call is the parameter lsF; a result of none
models the call raising OSError, which the source catches and turns
into False. -/
def s3isdir (lsF : String → Option (List String)) (path : String) : Bool :=
  let p := _sanitize_s3 path
  match lsF p with
  | none => false
  | some contents =>
    if contents.length == 1 && contents.getD 0 ("") == p then false else true

/-- Translates S3FSWrapper.isfile (filesystem.py lines 334-341), with
the same modelling of the client's ls call as s3isdir. -/
def s3isfile (lsF : String → Option (List String)) (path : String) : Bool :=
  let p := _sanitize_s3 path
  match lsF p with
  | none => false
  | some contents => contents.length == 1 && contents.getD 0 ("") == p

/- ===== S3FSWrapper: walk ===== -/

/-- Entry of the raw client listing self.fs._ls: a key plus a
storage-class tag distinguishing pseudo-directory markers, bucket
markers and regular objects. -/
structure S3Entry where
  Key : String
  StorageClass : String
deriving DecidableEq

/-- Python set.add on a list representation: append the element when it
is not already present. -/
def setAdd (s : List String) (x : String) : List String :=
  if x ∈ s then s else s ++ [x]

/-- Loop body of the listing loop in S3FSWrapper.walk (lines 354-361).
The accumulator carries the Python local variable path — reassigned to
key['Key'] on every iteration, including for BUCKET entries — and the
two sets directories and files. -/
def s3walkStep (acc : String × List String × List String) (key : S3Entry) :
    String × List String × List String :=
  let path := key.Key
  if key.StorageClass = "DIRECTORY" then (path, setAdd acc.2.1 path, acc.2.2)
  else if key.StorageClass = "BUCKET" then (path, acc.2.1, acc.2.2)
  else (path, acc.2.1, setAdd acc.2.2 path)

/-- One level of S3FSWrapper.walk (lines 350-369): run the listing loop
from the sanitized prefix p over the raw entries, then produce the final
value of the path variable, the sorted basenames of the directory keys,
and the sorted basenames of the file keys that are not also directory
keys. -/
def s3walkLevel (p : String) (entries : List S3Entry) :
    String × List String × List String :=
  let st := entries.foldl s3walkStep (p, [], [])
  let files := pySorted ((st.2.2.filter (fun f => decide (f ∉ st.2.1))).map posixBasename)
  let directories := pySorted (st.2.1.map posixBasename)
  (st.1, directories, files)

/-- Translates S3FSWrapper.walk (filesystem.py lines 343-373) as a
recursive generator, materialised as the list of yielded triples.  The
client listing _ls is the parameter lsD; fuel bounds the recursion
depth (the Python generator recurses without any bound) and is ample in
every concrete statement below. -/
def s3walk (lsD : String → List S3Entry) : Nat → String → List (String × List String × List String)
  | 0, _ => []
  | fuel + 1, path0 =>
    let p := _sanitize_s3 path0
    let lvl := s3walkLevel p (lsD p)
    lvl :: lvl.2.1.foldr (fun d acc => s3walk lsD fuel d ++ acc) []

/- ===== spec-side reformulations for the walk level (claim C2) ===== -/

/-- Follows the claim's words: the distinct pseudo-directory marker keys
of a raw listing (duplicates removed). -/
def dirKeysSpec (entries : List S3Entry) : List String :=
  ((entries.filter (fun e => decide (e.StorageClass = "DIRECTORY"))).map S3Entry.Key).dedup

/-- Follows the claim's words: the distinct regular-object keys of a raw
listing — entries that are neither pseudo-directory markers nor
bucket-tagged. -/
def fileKeysSpec (entries : List S3Entry) : List String :=
  ((entries.filter (fun e =>
    decide (e.StorageClass ≠ "DIRECTORY" ∧ e.StorageClass ≠ "BUCKET"))).map S3Entry.Key).dedup

/- ===== backend resolver and URI/path resolver ===== -/

/-- Split a string at every occurrence of a separator character, as
Python str.split(sep) does for a one-character separator: n separators
produce n + 1 (possibly empty) pieces. -/
def splitOnChar (sep : Char) (s : String) : List String :=
  (s.toList.foldr
    (fun c acc => if c = sep then [] :: acc else (c :: acc.headD []) :: acc.tailD [])
    [[]]).map String.mk

/-- Result of URI parsing: the components the source reads. -/
structure UriParts where
  scheme : String
  netloc : String
  path : String
deriving DecidableEq

/-- Character allowed in a URI scheme after the first character. -/
def isSchemeChar (c : Char) : Bool :=
  c.isAlphanum || c = '+' || c = '-' || c = '.'

/-- Models the Python standard library urlparse collaborator, restricted
to the components the source reads (scheme, netloc, path) and to inputs
without query or fragment parts: a leading <scheme>: is recognised when
the part before the colon is nonempty, starts with a letter and is made
of scheme characters, and is lowercased; a following // starts the
netloc, which extends to the next slash; everything else is the path. -/
def urlparse (s : String) : UriParts :=
  let cs := s.toList
  let pre := cs.takeWhile (fun c => decide (c ≠ ':'))
  let schemeRest : String × List Char :=
    if pre.length < cs.length ∧ pre ≠ [] ∧ (pre.headD ('a')).isAlpha = true ∧
        pre.all isSchemeChar = true then
      (String.mk (pre.map Char.toLower), cs.drop (pre.length + 1))
    else ("", cs)
  if schemeRest.2.take 2 = ([ '/', '/' ]) then
    let after := schemeRest.2.drop 2
    let nl := after.takeWhile (fun c => decide (c ≠ '/'))
    ⟨schemeRest.1, String.mk nl, String.mk (after.drop nl.length)⟩
  else
    ⟨schemeRest.1, "", String.mk schemeRest.2⟩

/-- Error raised by the resolver functions: a Python ValueError or
IOError carrying the formatted message. -/
inductive PyErr where
  | valueError (msg : String)
  | ioError (msg : String)
deriving DecidableEq

/-- Foreign filesystem-like object handed to the backend resolver: its
type's name, the names of the classes in its type's method resolution
order, and whether its type subclasses the abstract FileSystem. -/
structure ForeignFS where
  typeName : String
  mro : List String
  isFileSystemSubclass : Bool
deriving DecidableEq

/-- Backend produced by resolution: the pa.hdfs.connect collaborator is
modelled by the constructor hdfsFS holding the host and port it is
called with, LocalFileSystem.get_instance() by the constant localFS
(the process-wide singleton), S3FSWrapper(fs) by wrappedS3, and a
conforming object returned unchanged by foreign. -/
inductive ResolvedFS where
  | hdfsFS (host : String) (port : Nat)
  | localFS
  | wrappedS3 (fs : ForeignFS)
  | foreign (fs : ForeignFS)
deriving DecidableEq

/-- Loop over inspect.getmro in _ensure_filesystem (lines 389-397): the
first ancestor named S3FileSystem wraps the object, the first named
LocalFileSystem yields the local singleton, and a completed loop raises
IOError naming the type. -/
def ensureScan (fs : ForeignFS) : List String → Except PyErr ResolvedFS
  | [] => .error (.ioError ("Unrecognized filesystem: " ++ fs.typeName))
  | n :: rest =>
    if n = "S3FileSystem" then .ok (.wrappedS3 fs)
    else if n = "LocalFileSystem" then .ok .localFS
    else ensureScan fs rest

/-- Translates _ensure_filesystem (filesystem.py lines 383-399). -/
def _ensure_filesystem (fs : ForeignFS) : Except PyErr ResolvedFS :=
  if fs.isFileSystemSubclass then .ok (.foreign fs)
  else ensureScan fs fs.mro

/-- Python str.isnumeric as the source uses it on port strings: true
when the string is nonempty and all characters are digits. -/
def isnumericStr (s : String) : Bool :=
  decide (s.toList ≠ []) && s.toList.all Char.isDigit

/-- Models Python int() applied to a digit string. -/
def digitsToNat (s : String) : Nat :=
  s.toList.foldl (fun acc c => acc * 10 + (c.toNat - 48)) 0

/-- Input of resolve_filesystem_and_path: a path-like string, or an
already-open file-like object (which the source passes through). -/
inductive WhereArg where
  | path (s : String)
  | fileLike
deriving DecidableEq

/-- Translates resolve_filesystem_and_path (filesystem.py lines
402-441), with the collaborators modelled as described at ResolvedFS. -/
def resolve_filesystem_and_path (w : WhereArg) (filesystem : Option ForeignFS) :
    Except PyErr (Option ResolvedFS × WhereArg) :=
  match w with
  | .fileLike =>
    match filesystem with
    | some _ => .error (.valueError
        ("filesystem passed but where is file-like, so there is nothing to open with filesystem."))
    | none => .ok (none, .fileLike)
  | .path s =>
    match filesystem with
    | some fs => (_ensure_filesystem fs).map (fun r => (some r, .path s))
    | none =>
      let parsed_uri := urlparse s
      if parsed_uri.scheme = "hdfs" ∨ parsed_uri.scheme = "viewfs" then
        let netloc_split := splitOnChar ':' parsed_uri.netloc
        let host0 := netloc_split.headD ("")
        let host := if host0 = "" then "default" else parsed_uri.scheme ++ "://" ++ host0
        let port :=
          if netloc_split.length = 2 ∧ isnumericStr (netloc_split.getD 1 ("")) = true then
            digitsToNat (netloc_split.getD 1 (""))
          else 0
        .ok (some (.hdfsFS host port), .path parsed_uri.path)
      else if parsed_uri.scheme = "file" then
        .ok (some .localFS, .path parsed_uri.path)
      else
        .ok (some .localFS, .path s)

/-- Follows the claim's words for scheme dispatch when no explicit
filesystem is given: hdfs and viewfs URIs connect a distributed backend
whose host is scheme + :// + host when the authority's host part is
nonempty and the sentinel default when it is empty, whose port is the
parsed integer when a port is present and numeric and 0 otherwise,
returning the URI's path; file URIs give the local singleton and the
URI's path; any other scheme, or none, gives the local singleton and
the original input unchanged. -/
def schemeDispatchSpec (s : String) : Option ResolvedFS × WhereArg :=
  let parsed := urlparse s
  if parsed.scheme = "hdfs" ∨ parsed.scheme = "viewfs" then
    let hostPart := (splitOnChar ':' parsed.netloc).headD ("")
    let host := if hostPart = "" then "default" else parsed.scheme ++ "://" ++ hostPart
    let port :=
      match splitOnChar ':' parsed.netloc with
      | [_, pstr] => if isnumericStr pstr = true then digitsToNat pstr else 0
      | _ => 0
    (some (.hdfsFS host port), .path parsed.path)
  else if parsed.scheme = "file" then
    (some .localFS, .path parsed.path)
  else
    (some .localFS, .path s)

/- ===== LocalFileSystem.mkdir over modelled host OS primitives ===== -/

/-- Error raised by the modelled OS directory primitives. -/
inductive OSErr where
  | fileExists
  | fileNotFound
deriving DecidableEq

/-- Proper ancestors of a path (paths are lists of components),
shortest first, the root excluded. -/
def ancestorChain (p : List String) : List (List String) :=
  ((List.range p.length).map (fun i => p.take i)).filter (fun q => decide (q ≠ []))

/-- Models the host primitive os.mkdir as documented for the Local
Backend's collaborator: the state is the set of existing directories
(the root [] always exists); creating an existing path raises
FileExistsError, creating under a missing parent raises
FileNotFoundError, and otherwise the path is added. -/
def osMkdir (dirs : List (List String)) (p : List String) :
    Except OSErr (List (List String)) :=
  if p ∈ dirs then .error .fileExists
  else if p.dropLast ∈ dirs ∨ p.dropLast = [] then .ok (p :: dirs)
  else .error .fileNotFound

/-- Models the host primitive os.makedirs with its default
exist_ok=False, as documented: every missing proper ancestor is
created (ancestors that already exist are no error), then the target
itself is created with os.mkdir, so an already-existing target raises
FileExistsError. -/
def osMakedirs (dirs : List (List String)) (p : List String) :
    Except OSErr (List (List String)) :=
  osMkdir ((ancestorChain p).foldl (fun d q => if q ∈ d then d else q :: d) dirs) p

/-- Translates LocalFileSystem.mkdir (filesystem.py lines 211-217):
create_parents chooses between os.makedirs and os.mkdir, with neither
call shielded against an already-existing target. -/
def localMkdir (dirs : List (List String)) (p : List String) (create_parents : Bool) :
    Except OSErr (List (List String)) :=
  if create_parents then osMakedirs dirs p else osMkdir dirs p

/- ===== FileSystem.disk_usage over an abstract backend ===== -/

/-- Result of a backend's stat call: the two fields the default
disk_usage implementation reads. -/
structure StatInfo where
  kind : String
  size : Nat
deriving DecidableEq

/-- Abstract backend as the default FileSystem.disk_usage consumes it:
a stat call (none models stat raising for a missing path), a walk
producing (root, directory names, file names) triples, and the
_path_join helper.  Paths are the type parameter; the tree model below
instantiates them with component lists, where path_join appends one
component as pathsep.join does for its two arguments. -/
structure GenFS (π : Type) where
  stat : π → Option StatInfo
  walk : π → List (π × List String × List String)
  path_join : π → String → π

/-- Inner loop of disk_usage (filesystem.py lines 84-86): add
stat(path_join(root, child)).size to the total for every file name of
one walk triple. -/
def duInner {π : Type} (fs : GenFS π) (r : π) (fls : List String) (t : Nat) : Option Nat :=
  fls.foldlM
    (fun t2 child => (fs.stat (fs.path_join r child)).map (fun st => t2 + st.size)) t

/-- Outer loop of disk_usage (line 83): fold the inner loop over the
walk triples. -/
def duOuter {π : Type} (fs : GenFS π) (l : List (π × List String × List String))
    (t : Nat) : Option Nat :=
  l.foldlM (fun t2 rdf => duInner fs rdf.1 rdf.2.2 t2) t

/-- Translates FileSystem.disk_usage (filesystem.py lines 64-88): stat
the path, return the size when the kind is file, otherwise total the
stat sizes of every file listed by walk. -/
def GenFS.disk_usage {π : Type} (fs : GenFS π) (path : π) : Option Nat := do
  let path_info ← fs.stat path
  if path_info.kind = "file" then
    pure path_info.size
  else
    duOuter fs (fs.walk path) 0

/- ===== host directory-tree model backing the local backend ===== -/

/-- Host directory tree: a file with a size, or a directory with named
children. -/
inductive FNode where
  | file (size : Nat)
  | dir (children : List (String × FNode))

/-- First child with the given name, as directory lookup resolves a
component. -/
def findChild (cs : List (String × FNode)) (nm : String) : Option FNode :=
  match cs with
  | [] => none
  | (n, c) :: rest => if n = nm then some c else findChild rest nm

/-- Resolve a component path in a tree. -/
def lookup : FNode → List String → Option FNode
  | n, [] => some n
  | .file _, _ :: _ => none
  | .dir cs, nm :: rest =>
    match findChild cs nm with
    | some c => lookup c rest
    | none => none

/-- Stat result of a tree node: files carry their size, directories
report kind directory (their size field is never read as a size). -/
def statOf : FNode → StatInfo
  | .file s => ⟨"file", s⟩
  | .dir _ => ⟨"directory", 0⟩

/-- True on directory nodes. -/
def isDirNode : FNode → Bool
  | .file _ => false
  | .dir _ => true

/-- Names of the directory children of a listing, in listing order. -/
def childDirNames (cs : List (String × FNode)) : List String :=
  (cs.filter (fun c => isDirNode c.2)).map Prod.fst

/-- Names of the file children of a listing, in listing order. -/
def childFileNames (cs : List (String × FNode)) : List String :=
  (cs.filter (fun c => !isDirNode c.2)).map Prod.fst

mutual

/-- Models the os.walk collaborator on a tree: yield the current
directory with its child directory and file names, then the walks of
the child directories in order (pre-order, depth-first); walking a
file yields nothing. -/
def walkNode : List String → FNode → List (List String × List String × List String)
  | _, .file _ => []
  | p, .dir cs => (p, childDirNames cs, childFileNames cs) :: walkChildren p cs

/-- Walks of the children of a listing, in order. -/
def walkChildren : List String → List (String × FNode) →
    List (List String × List String × List String)
  | _, [] => []
  | p, (nm, c) :: rest => walkNode (p ++ [nm]) c ++ walkChildren p rest

end

mutual

/-- Total size of the files in a subtree, directories contributing
zero: the quantity the claim describes. -/
def treeSize : FNode → Nat
  | .file s => s
  | .dir cs => treeSizeList cs

/-- Sum of treeSize over a listing's children. -/
def treeSizeList : List (String × FNode) → Nat
  | [] => 0
  | (_, c) :: rest => treeSize c + treeSizeList rest

end

/-- Size contributed below a node by the walk starting at it: zero for
a file (walking a file yields nothing), the subtree total for a
directory. -/
def dirSize : FNode → Nat
  | .file _ => 0
  | .dir cs => treeSizeList cs

/-- Sum of the sizes of the file children of one listing. -/
def sumFileSizes : List (String × FNode) → Nat
  | [] => 0
  | (_, .file s) :: rest => s + sumFileSizes rest
  | (_, .dir _) :: rest => sumFileSizes rest

/-- Sum of dirSize over a listing's children. -/
def sumDirSizes : List (String × FNode) → Nat
  | [] => 0
  | (_, c) :: rest => dirSize c + sumDirSizes rest

mutual

/-- Well-formed tree: every directory's child names are distinct, so a
path resolves to the unique node the walk visits there. -/
def wfNode : FNode → Bool
  | .file _ => true
  | .dir cs => decide ((cs.map Prod.fst).Nodup) && wfChildren cs

/-- Conjunction of wfNode over a listing's children. -/
def wfChildren : List (String × FNode) → Bool
  | [] => true
  | (_, c) :: rest => wfNode c && wfChildren rest

end

/-- Backend over a host directory tree rooted at root: stat and walk
resolve the path in the tree (walking a missing path yields nothing, as
os.walk does), and path_join appends one component. -/
def treeFS (root : FNode) : GenFS (List String) where
  stat := fun p => (lookup root p).map statOf
  walk := fun p =>
    match lookup root p with
    | some n => walkNode p n
    | none => []
  path_join := fun p nm => p ++ [nm]

/-- Concrete tree used in the disk-usage witness. -/
def demoTree : FNode :=
  .dir [("a.txt", .file 3), ("d", .dir [("b.txt", .file 4), ("e", .dir [])])]

/- ===== concrete listing models used in closed statements ===== -/

/-- Client whose listing always succeeds with an empty result. -/
def lsEmptyModel : String → Option (List String) := fun _ => some []

/-- Client whose listing of any key succeeds with exactly that key. -/
def lsSelfModel : String → Option (List String) := fun s => some [s]

/-- Raw-listing client for a store holding the object bucket/key/a.txt,
the pseudo-directory bucket/key/sub and the object
bucket/key/sub/b.txt. -/
def lsBugModel : String → List S3Entry := fun p =>
  if p = "bucket/key" then
    [⟨"bucket/key/sub", "DIRECTORY"⟩, ⟨"bucket/key/a.txt", "STANDARD"⟩]
  else if p = "bucket/key/sub" then
    [⟨"bucket/key/sub/b.txt", "STANDARD"⟩]
  else []

/- ===================================================================
   Theorems
   =================================================================== -/

/- ===== order facts about the Python string comparison ===== -/

theorem char_toNat_inj {a b : Char} (h : a.toNat = b.toNat) : a = b :=
  Char.eq_of_val_eq (UInt32.toNat.inj h)

theorem charListLe_total : ∀ a b : List Char, charListLe a b = true ∨ charListLe b a = true := by
  intro a
  induction a with
  | nil => intro b; left; rfl
  | cons x as ih =>
    intro b
    cases b with
    | nil => right; rfl
    | cons y bs =>
      unfold charListLe
      rcases Nat.lt_trichotomy x.toNat y.toNat with h | h | h
      · left; simp [h]
      · rcases ih bs with hc | hc
        · left; simp [h, hc]
        · right; simp [h.symm, hc]
      · right; simp [h]

theorem charListLe_trans :
    ∀ a b c : List Char, charListLe a b = true → charListLe b c = true →
      charListLe a c = true := by
  intro a
  induction a with
  | nil => intro b c h₁ h₂; rfl
  | cons x as ih =>
    intro b c h₁ h₂
    cases b with
    | nil => simp [charListLe] at h₁
    | cons y bs =>
      cases c with
      | nil => simp [charListLe] at h₂
      | cons z cs =>
        unfold charListLe at h₁ h₂ ⊢
        rcases Nat.lt_trichotomy x.toNat y.toNat with hxy | hxy | hxy
        · rcases Nat.lt_trichotomy y.toNat z.toNat with hyz | hyz | hyz
          · simp [show x.toNat < z.toNat by omega]
          · simp [show x.toNat < z.toNat by omega]
          · simp [show ¬ y.toNat < z.toNat by omega, hyz] at h₂
        · have hx := char_toNat_inj hxy; subst hx
          rcases Nat.lt_trichotomy x.toNat z.toNat with hyz | hyz | hyz
          · simp [hyz]
          · have hz := char_toNat_inj hyz; subst hz
            simp only [Nat.lt_irrefl, if_false] at h₁ h₂ ⊢
            exact ih bs cs h₁ h₂
          · simp [show ¬ x.toNat < z.toNat by omega, hyz] at h₂
        · simp [show ¬ x.toNat < y.toNat by omega, hxy] at h₁

theorem charListLe_antisymm :
    ∀ a b : List Char, charListLe a b = true → charListLe b a = true → a = b := by
  intro a
  induction a with
  | nil =>
    intro b h₁ h₂
    cases b with
    | nil => rfl
    | cons y bs => simp [charListLe] at h₂
  | cons x as ih =>
    intro b h₁ h₂
    cases b with
    | nil => simp [charListLe] at h₁
    | cons y bs =>
      unfold charListLe at h₁ h₂
      rcases Nat.lt_trichotomy x.toNat y.toNat with h | h | h
      · simp [show ¬ y.toNat < x.toNat by omega, h] at h₂
      · have hx := char_toNat_inj h; subst hx
        simp only [Nat.lt_irrefl, if_false] at h₁ h₂
        rw [ih bs h₁ h₂]
      · simp [show ¬ x.toNat < y.toNat by omega, h] at h₁

theorem string_eq_of_toList_eq {a b : String} (h : a.toList = b.toList) : a = b := by
  cases a with
  | mk da =>
    cases b with
    | mk db =>
      have hd : da = db := by simpa [String.toList] using h
      rw [hd]

instance : IsTotal String pyLeRel :=
  ⟨fun a b => charListLe_total a.toList b.toList⟩

instance : IsTrans String pyLeRel :=
  ⟨fun a b c h₁ h₂ => charListLe_trans a.toList b.toList c.toList h₁ h₂⟩

instance : IsAntisymm String pyLeRel :=
  ⟨fun a b h₁ h₂ => string_eq_of_toList_eq (charListLe_antisymm a.toList b.toList h₁ h₂)⟩

/-- Sorting with pySorted is invariant under permutation of the input:
insertion sort of a linear order is determined by the multiset of
elements. -/
theorem pySorted_eq_of_perm {l₁ l₂ : List String} (h : List.Perm l₁ l₂) :
    pySorted l₁ = pySorted l₂ :=
  List.eq_of_perm_of_sorted
    ((List.perm_insertionSort pyLeRel l₁).trans
      (h.trans (List.perm_insertionSort pyLeRel l₂).symm))
    (List.sorted_insertionSort pyLeRel l₁)
    (List.sorted_insertionSort pyLeRel l₂)

/- ===== the listing loop of walk builds deduplicated key sets ===== -/

theorem mem_setAdd {s : List String} {x y : String} :
    y ∈ setAdd s x ↔ y ∈ s ∨ y = x := by
  unfold setAdd
  by_cases h : x ∈ s
  · simp only [if_pos h]
    exact ⟨Or.inl, fun hh => hh.elim id (fun he => he ▸ h)⟩
  · simp [if_neg h]

theorem setAdd_nodup {s : List String} {x : String} (h : s.Nodup) :
    (setAdd s x).Nodup := by
  unfold setAdd
  by_cases hx : x ∈ s
  · simpa [if_pos hx]
  · simp [if_neg hx, List.nodup_append, h, hx]

theorem s3fold_dirs_mem (entries : List S3Entry) :
    ∀ (acc : String × List String × List String) (x : String),
      x ∈ (entries.foldl s3walkStep acc).2.1 ↔
        x ∈ acc.2.1 ∨ ∃ e ∈ entries, e.StorageClass = "DIRECTORY" ∧ e.Key = x := by
  induction entries with
  | nil => simp
  | cons e rest ih =>
    intro acc x
    rw [List.foldl_cons, ih]
    by_cases h1 : e.StorageClass = "DIRECTORY" <;>
      by_cases h2 : e.StorageClass = "BUCKET" <;>
        simp [s3walkStep, h1, h2, mem_setAdd] <;> tauto

theorem s3fold_files_mem (entries : List S3Entry) :
    ∀ (acc : String × List String × List String) (x : String),
      x ∈ (entries.foldl s3walkStep acc).2.2 ↔
        x ∈ acc.2.2 ∨ ∃ e ∈ entries,
          e.StorageClass ≠ "DIRECTORY" ∧ e.StorageClass ≠ "BUCKET" ∧ e.Key = x := by
  induction entries with
  | nil => simp
  | cons e rest ih =>
    intro acc x
    rw [List.foldl_cons, ih]
    by_cases h1 : e.StorageClass = "DIRECTORY" <;>
      by_cases h2 : e.StorageClass = "BUCKET" <;>
        simp [s3walkStep, h1, h2, mem_setAdd] <;> tauto

theorem s3fold_dirs_nodup (entries : List S3Entry) :
    ∀ acc : String × List String × List String, acc.2.1.Nodup →
      ((entries.foldl s3walkStep acc).2.1).Nodup := by
  induction entries with
  | nil => intro acc h; simpa
  | cons e rest ih =>
    intro acc h
    rw [List.foldl_cons]
    apply ih
    by_cases h1 : e.StorageClass = "DIRECTORY" <;>
      by_cases h2 : e.StorageClass = "BUCKET" <;>
        simp [s3walkStep, h1, h2, setAdd_nodup, h]

theorem s3fold_files_nodup (entries : List S3Entry) :
    ∀ acc : String × List String × List String, acc.2.2.Nodup →
      ((entries.foldl s3walkStep acc).2.2).Nodup := by
  induction entries with
  | nil => intro acc h; simpa
  | cons e rest ih =>
    intro acc h
    rw [List.foldl_cons]
    apply ih
    by_cases h1 : e.StorageClass = "DIRECTORY" <;>
      by_cases h2 : e.StorageClass = "BUCKET" <;>
        simp [s3walkStep, h1, h2, setAdd_nodup, h]

theorem mem_dirKeysSpec {entries : List S3Entry} {x : String} :
    x ∈ dirKeysSpec entries ↔
      ∃ e ∈ entries, e.StorageClass = "DIRECTORY" ∧ e.Key = x := by
  simp only [dirKeysSpec, List.mem_dedup, List.mem_map, List.mem_filter,
    decide_eq_true_eq]
  tauto

theorem mem_fileKeysSpec {entries : List S3Entry} {x : String} :
    x ∈ fileKeysSpec entries ↔
      ∃ e ∈ entries,
        e.StorageClass ≠ "DIRECTORY" ∧ e.StorageClass ≠ "BUCKET" ∧ e.Key = x := by
  simp only [fileKeysSpec, List.mem_dedup, List.mem_map, List.mem_filter,
    decide_eq_true_eq]
  tauto

theorem s3fold_dirs_perm (p : String) (entries : List S3Entry) :
    List.Perm ((entries.foldl s3walkStep (p, ([] : List String), ([] : List String))).2.1)
      (dirKeysSpec entries) := by
  have h₂ : (dirKeysSpec entries).Nodup := List.nodup_dedup _
  refine (List.perm_ext_iff_of_nodup ?_ h₂).mpr ?_
  · exact s3fold_dirs_nodup entries _ (by simp)
  · intro a
    rw [s3fold_dirs_mem, mem_dirKeysSpec]
    simp

theorem s3fold_files_perm (p : String) (entries : List S3Entry) :
    List.Perm ((entries.foldl s3walkStep (p, ([] : List String), ([] : List String))).2.2)
      (fileKeysSpec entries) := by
  have h₂ : (fileKeysSpec entries).Nodup := List.nodup_dedup _
  refine (List.perm_ext_iff_of_nodup ?_ h₂).mpr ?_
  · exact s3fold_files_nodup entries _ (by simp)
  · intro a
    rw [s3fold_files_mem, mem_fileKeysSpec]
    simp

/- ===== C2 ===== -/

/-- C2: in each walk level, the yielded directories list is exactly the
sorted basenames of the distinct pseudo-directory marker keys (duplicate
markers collapse to one entry through the set), bucket-tagged entries
reach neither list, and the yielded files list is exactly the sorted
basenames of the distinct regular-object keys whose full key is not also
a directory key. -/
theorem s3walkLevel_partition (p : String) (entries : List S3Entry) :
    (s3walkLevel p entries).2.1 = pySorted ((dirKeysSpec entries).map posixBasename) ∧
    (s3walkLevel p entries).2.2 =
      pySorted (((fileKeysSpec entries).filter
        (fun k => decide (k ∉ dirKeysSpec entries))).map posixBasename) := by
  constructor
  · exact pySorted_eq_of_perm ((s3fold_dirs_perm p entries).map posixBasename)
  · have hdirs_mem : ∀ f : String,
        (f ∈ (entries.foldl s3walkStep (p, ([] : List String), ([] : List String))).2.1) ↔
          f ∈ dirKeysSpec entries := by
      intro f
      rw [s3fold_dirs_mem, mem_dirKeysSpec]
      simp
    have hfilter :
        ((entries.foldl s3walkStep (p, ([] : List String), ([] : List String))).2.2).filter
            (fun f => decide
              (f ∉ (entries.foldl s3walkStep (p, ([] : List String), ([] : List String))).2.1)) =
          ((entries.foldl s3walkStep (p, ([] : List String), ([] : List String))).2.2).filter
            (fun f => decide (f ∉ dirKeysSpec entries)) :=
      List.filter_congr (fun x _ => decide_eq_decide.mpr (not_congr (hdirs_mem x)))
    show pySorted _ = _
    rw [hfilter]
    exact pySorted_eq_of_perm (((s3fold_files_perm p entries).filter
      (fun k => decide (k ∉ dirKeysSpec entries))).map posixBasename)

/- ===== C1 ===== -/

/-- C1: evaluating S3FSWrapper.walk on the prefix bucket/key of
lsBugModel shows the code contradicting the walk contract: the first
yielded triple's first component is "bucket/key/a.txt" — the last key
of the listing, because the listing loop reuses the variable path — and
not the prefix bucket/key being listed, and the recursion descends into
the basename "sub" rather than bucket/key/sub, so the file
bucket/key/sub/b.txt appears in no yielded triple. -/
theorem s3walk_clobbers_current_prefix :
    s3walk lsBugModel 3 ("bucket/key") =
      [("bucket/key/a.txt", ["sub"], ["a.txt"]), ("sub", [], [])] := by
  decide

/- ===== C3 ===== -/

/-- C3 counterexample: on a successful but empty listing the source
falls into the else branch and returns True, while the claim says an
empty listing is classified as not a directory. -/
theorem s3isdir_empty_listing_returns_true :
    s3isdir lsEmptyModel ("bucket/key") = true := by
  decide

/-- C3 (amended): S3FSWrapper.isdir(p) returns True exactly when the
listing of the sanitized path succeeds with a result other than the
one-element list holding the sanitized path itself; in particular a
successful empty listing yields True, and a listing error (OSError)
yields False. -/
theorem s3isdir_true_iff (lsF : String → Option (List String)) (p : String) :
    s3isdir lsF p = true ↔
      ∃ contents, lsF (_sanitize_s3 p) = some contents ∧
        contents ≠ [_sanitize_s3 p] := by
  unfold s3isdir
  cases h : lsF (_sanitize_s3 p) with
  | none => simp [h]
  | some contents =>
    simp only [h, Option.some.injEq]
    match contents with
    | [] => simp
    | [a] =>
      by_cases ha : a = _sanitize_s3 p <;>
        simp [ha, List.getD]
    | a :: b :: t => simp

/-- C3 witness: the amended statement applied to the empty-listing
client at a concrete path. -/
theorem s3isdir_true_iff_witness :
    s3isdir lsEmptyModel ("some/path") = true :=
  (s3isdir_true_iff lsEmptyModel ("some/path")).mpr ⟨[], rfl, by decide⟩

/- ===== C7 ===== -/

/-- C7: S3FSWrapper.isfile(p) returns True exactly when the listing of
the sanitized path (the path with its leading bucket-root scheme
s3:// stripped) succeeds with exactly the one-element list holding the
sanitized path; when the listing raises OSError the result is False,
which the iff also covers since its right side then fails. -/
theorem s3isfile_true_iff (lsF : String → Option (List String)) (p : String) :
    s3isfile lsF p = true ↔
      lsF (_sanitize_s3 p) = some [_sanitize_s3 p] := by
  unfold s3isfile
  cases h : lsF (_sanitize_s3 p) with
  | none => simp [h]
  | some contents =>
    simp only [h, Option.some.injEq]
    match contents with
    | [] => simp
    | [a] =>
      by_cases ha : a = _sanitize_s3 p <;>
        simp [ha, List.getD]
    | a :: b :: t => simp

/-- C7 witness: the iff applied to the self-listing client at a path
carrying the s3:// scheme. -/
theorem s3isfile_true_iff_witness :
    s3isfile lsSelfModel ("s3://bucket/key") = true :=
  (s3isfile_true_iff lsSelfModel ("s3://bucket/key")).mpr (by decide)

/- ===== C10 ===== -/

/-- C10: whenever the underlying listing succeeds, S3FSWrapper.isdir is
exactly the boolean negation of S3FSWrapper.isfile on the same path. -/
theorem s3isdir_eq_not_isfile (lsF : String → Option (List String)) (p : String)
    (contents : List String) (h : lsF (_sanitize_s3 p) = some contents) :
    s3isdir lsF p = !(s3isfile lsF p) := by
  unfold s3isdir s3isfile
  simp only [h]
  cases contents.length == 1 && contents.getD 0 ("") == _sanitize_s3 p <;> simp

/-- C10 witness: the negation relationship at a concrete client and
path whose listing succeeds. -/
theorem s3isdir_eq_not_isfile_witness :
    s3isdir lsSelfModel ("bucket/key") = !(s3isfile lsSelfModel ("bucket/key")) :=
  s3isdir_eq_not_isfile lsSelfModel ("bucket/key") ["bucket/key"] rfl

/- ===== mro-scan lemmas for the backend resolver ===== -/

theorem ensureScan_s3 (fs : ForeignFS) :
    ∀ l : List String, "S3FileSystem" ∈ l → "LocalFileSystem" ∉ l →
      ensureScan fs l = .ok (.wrappedS3 fs) := by
  intro l
  induction l with
  | nil => intro h _; cases h
  | cons n rest ih =>
    intro hmem hnot
    unfold ensureScan
    by_cases h1 : n = "S3FileSystem"
    · simp [h1]
    · have h2 : n ≠ "LocalFileSystem" := fun he => hnot (he ▸ List.mem_cons_self n rest)
      have h3 : "S3FileSystem" ∈ rest := by
        rcases List.mem_cons.mp hmem with he | he
        · exact absurd he.symm h1
        · exact he
      have h4 : "LocalFileSystem" ∉ rest := fun hc => hnot (List.mem_cons_of_mem n hc)
      simp [h1, h2]
      exact ih h3 h4

theorem ensureScan_local (fs : ForeignFS) :
    ∀ l : List String, "LocalFileSystem" ∈ l → "S3FileSystem" ∉ l →
      ensureScan fs l = .ok .localFS := by
  intro l
  induction l with
  | nil => intro h _; cases h
  | cons n rest ih =>
    intro hmem hnot
    unfold ensureScan
    by_cases h1 : n = "LocalFileSystem"
    · have h2 : n ≠ "S3FileSystem" := fun he => hnot (he ▸ List.mem_cons_self n rest)
      simp [h1, h2]
    · have h2 : n ≠ "S3FileSystem" := fun he => hnot (he ▸ List.mem_cons_self n rest)
      have h3 : "LocalFileSystem" ∈ rest := by
        rcases List.mem_cons.mp hmem with he | he
        · exact absurd he.symm h1
        · exact he
      have h4 : "S3FileSystem" ∉ rest := fun hc => hnot (List.mem_cons_of_mem n hc)
      simp [h1, h2]
      exact ih h3 h4

theorem ensureScan_unrecognized (fs : ForeignFS) :
    ∀ l : List String, "S3FileSystem" ∉ l → "LocalFileSystem" ∉ l →
      ensureScan fs l = .error (.ioError ("Unrecognized filesystem: " ++ fs.typeName)) := by
  intro l
  induction l with
  | nil => intro _ _; rfl
  | cons n rest ih =>
    intro h1 h2
    unfold ensureScan
    have hn1 : n ≠ "S3FileSystem" := fun he => h1 (he ▸ List.mem_cons_self n rest)
    have hn2 : n ≠ "LocalFileSystem" := fun he => h2 (he ▸ List.mem_cons_self n rest)
    simp [hn1, hn2]
    exact ih (fun hc => h1 (List.mem_cons_of_mem n hc))
      (fun hc => h2 (List.mem_cons_of_mem n hc))

/- ===== C6 ===== -/

/-- C6: _ensure_filesystem returns a conforming object unchanged; a
non-conforming object whose ancestry contains the name S3FileSystem
(and not LocalFileSystem) is wrapped in the object-store adapter; one
whose ancestry contains LocalFileSystem (and not S3FileSystem) yields
the process-wide local singleton, discarding the object; and one with
neither name fails with an IOError naming the unrecognized type. -/
theorem ensure_filesystem_classifies (fs : ForeignFS) :
    (fs.isFileSystemSubclass = true → _ensure_filesystem fs = .ok (.foreign fs)) ∧
    (fs.isFileSystemSubclass = false → "S3FileSystem" ∈ fs.mro →
      "LocalFileSystem" ∉ fs.mro → _ensure_filesystem fs = .ok (.wrappedS3 fs)) ∧
    (fs.isFileSystemSubclass = false → "LocalFileSystem" ∈ fs.mro →
      "S3FileSystem" ∉ fs.mro → _ensure_filesystem fs = .ok .localFS) ∧
    (fs.isFileSystemSubclass = false → "S3FileSystem" ∉ fs.mro →
      "LocalFileSystem" ∉ fs.mro →
      _ensure_filesystem fs =
        .error (.ioError ("Unrecognized filesystem: " ++ fs.typeName))) := by
  refine ⟨fun h => ?_, fun h hm hn => ?_, fun h hm hn => ?_, fun h hm hn => ?_⟩
  · unfold _ensure_filesystem
    simp [h]
  · unfold _ensure_filesystem
    simp only [h, Bool.false_eq_true, if_false]
    exact ensureScan_s3 fs fs.mro hm hn
  · unfold _ensure_filesystem
    simp only [h, Bool.false_eq_true, if_false]
    exact ensureScan_local fs fs.mro hm hn
  · unfold _ensure_filesystem
    simp only [h, Bool.false_eq_true, if_false]
    exact ensureScan_unrecognized fs fs.mro hm hn

/-- C6 witness: the four classifications at concrete foreign objects. -/
theorem ensure_filesystem_classifies_witness :
    _ensure_filesystem ⟨"MyFS", ["MyFS", "FileSystem"], true⟩ =
      .ok (.foreign ⟨"MyFS", ["MyFS", "FileSystem"], true⟩) ∧
    _ensure_filesystem ⟨"s3fs.S3FileSystem", ["S3FileSystem", "object"], false⟩ =
      .ok (.wrappedS3 ⟨"s3fs.S3FileSystem", ["S3FileSystem", "object"], false⟩) ∧
    _ensure_filesystem ⟨"dask.LocalFileSystem", ["LocalFileSystem", "object"], false⟩ =
      .ok .localFS ∧
    _ensure_filesystem ⟨"WeirdFS", ["WeirdFS", "object"], false⟩ =
      .error (.ioError ("Unrecognized filesystem: " ++ "WeirdFS")) :=
  ⟨(ensure_filesystem_classifies _).1 rfl,
   (ensure_filesystem_classifies _).2.1 rfl (by decide) (by decide),
   (ensure_filesystem_classifies _).2.2.1 rfl (by decide) (by decide),
   (ensure_filesystem_classifies _).2.2.2 rfl (by decide) (by decide)⟩

/- ===== C5 ===== -/

/-- C5: with a path-like input and no explicit filesystem, the resolver
dispatches on the parsed URI scheme exactly as the claim describes:
hdfs/viewfs connect a distributed backend (sentinel default host when
the authority's host is empty, scheme-prefixed host otherwise, numeric
two-part authority giving the port and 0 otherwise) with the URI path;
file gives the local singleton with the URI path; everything else gives
the local singleton with the input unchanged; the spec's three concrete
resolutions are included. -/
theorem resolve_scheme_dispatch :
    (∀ w : String,
      resolve_filesystem_and_path (.path w) none = .ok (schemeDispatchSpec w)) ∧
    resolve_filesystem_and_path (.path ("hdfs://myhost:9000/data/x.parquet")) none =
      .ok (some (.hdfsFS ("hdfs://myhost") 9000), .path ("/data/x.parquet")) ∧
    resolve_filesystem_and_path (.path ("file:///home/u/x.parquet")) none =
      .ok (some .localFS, .path ("/home/u/x.parquet")) ∧
    resolve_filesystem_and_path (.path ("/home/u/x.parquet")) none =
      .ok (some .localFS, .path ("/home/u/x.parquet")) := by
  refine ⟨fun w => ?_, by rfl, by rfl, by rfl⟩
  unfold resolve_filesystem_and_path schemeDispatchSpec
  by_cases h1 : (urlparse w).scheme = "hdfs" ∨ (urlparse w).scheme = "viewfs"
  · simp only [h1, if_true]
    rcases hsplit : splitOnChar ':' (urlparse w).netloc with _ | ⟨a, rest⟩
    · simp [hsplit]
    · rcases rest with _ | ⟨b, rest2⟩
      · simp [hsplit]
      · rcases rest2 with _ | ⟨c, rest3⟩
        · simp [hsplit]
        · simp [hsplit]
  · by_cases h2 : (urlparse w).scheme = "file" <;> simp [h1, h2]

/- ===== C8 ===== -/

/-- C8: with a stream-like (not path-like) input, supplying an explicit
filesystem as well is rejected with ValueError, and supplying none
returns no backend together with the stream unchanged. -/
theorem resolve_file_like_dispatch (fs : ForeignFS) :
    resolve_filesystem_and_path .fileLike (some fs) =
      .error (.valueError
        ("filesystem passed but where is file-like, so there is nothing to open with filesystem.")) ∧
    resolve_filesystem_and_path .fileLike none = .ok (none, .fileLike) :=
  ⟨rfl, rfl⟩

/- ===== C4 ===== -/

theorem mem_foldl_addMissing (l : List (List String)) :
    ∀ (dirs : List (List String)) (q : List String),
      q ∈ l.foldl (fun d q2 => if q2 ∈ d then d else q2 :: d) dirs ↔ q ∈ l ∨ q ∈ dirs := by
  induction l with
  | nil => simp
  | cons a rest ih =>
    intro dirs q
    rw [List.foldl_cons, ih]
    by_cases ha : a ∈ dirs
    · simp only [if_pos ha, List.mem_cons]
      constructor
      · intro h; tauto
      · rintro ((rfl | h) | h)
        · exact Or.inr ha
        · exact Or.inl h
        · exact Or.inr h
    · simp only [if_neg ha, List.mem_cons]
      tauto

theorem ancestorChain_length {p q : List String} (h : q ∈ ancestorChain p) :
    q.length < p.length := by
  unfold ancestorChain at h
  simp only [List.mem_filter, List.mem_map, List.mem_range, decide_eq_true_eq] at h
  obtain ⟨⟨i, hi, rfl⟩, hne⟩ := h
  simp only [List.length_take]
  omega

theorem self_not_mem_ancestorChain (p : List String) : p ∉ ancestorChain p :=
  fun h => absurd (ancestorChain_length h) (Nat.lt_irrefl _)

theorem dropLast_mem_ancestorChain {p : List String} (h : p.dropLast ≠ []) :
    p.dropLast ∈ ancestorChain p := by
  unfold ancestorChain
  have hlen : p.length ≥ 2 := by
    rcases p with _ | ⟨a, _ | ⟨b, t⟩⟩
    · simp at h
    · simp at h
    · simp only [List.length_cons]
      omega
  simp only [List.mem_filter, List.mem_map, List.mem_range, decide_eq_true_eq]
  refine ⟨⟨p.length - 1, by omega, ?_⟩, h⟩
  rw [List.dropLast_eq_take]

/-- C4 counterexample: mkdir with create_parents=true on a path that
already exists raises FileExistsError — os.makedirs is called without
exist_ok — while the claim says parent-creating mode succeeds
idempotently on an existing path. -/
theorem localMkdir_existing_target_raises :
    localMkdir [["a"]] ["a"] true = .error .fileExists := rfl

/-- C4 (amended): with create_parents=true, mkdir creates every missing
ancestor of the target and succeeds whenever the target itself does not
exist yet (ancestors may or may not exist), but raises FileExistsError
when the target already exists; with create_parents=false it raises
FileExistsError when the target exists, raises FileNotFoundError when
the immediate parent is missing, and otherwise creates the target. -/
theorem localMkdir_spec (dirs : List (List String)) (p : List String) :
    (p ∉ dirs → ∃ dirs2, localMkdir dirs p true = .ok dirs2 ∧ p ∈ dirs2 ∧
      ∀ q ∈ ancestorChain p, q ∈ dirs2) ∧
    (p ∈ dirs → localMkdir dirs p true = .error .fileExists) ∧
    (p ∈ dirs → localMkdir dirs p false = .error .fileExists) ∧
    (p ∉ dirs → p.dropLast ∉ dirs → p.dropLast ≠ [] →
      localMkdir dirs p false = .error .fileNotFound) ∧
    (p ∉ dirs → (p.dropLast ∈ dirs ∨ p.dropLast = []) →
      localMkdir dirs p false = .ok (p :: dirs)) := by
  refine ⟨fun h => ?_, fun h => ?_, fun h => ?_, fun h h2 h3 => ?_, fun h h2 => ?_⟩
  · unfold localMkdir osMakedirs osMkdir
    have hp : p ∉ (ancestorChain p).foldl (fun d q2 => if q2 ∈ d then d else q2 :: d) dirs := by
      rw [mem_foldl_addMissing]
      rintro (hc | hc)
      · exact self_not_mem_ancestorChain p hc
      · exact h hc
    have hpar : p.dropLast ∈ (ancestorChain p).foldl
        (fun d q2 => if q2 ∈ d then d else q2 :: d) dirs ∨ p.dropLast = [] := by
      by_cases hd : p.dropLast = []
      · exact Or.inr hd
      · exact Or.inl ((mem_foldl_addMissing _ _ _).mpr
          (Or.inl (dropLast_mem_ancestorChain hd)))
    simp only [if_pos rfl, if_neg hp, if_pos hpar]
    refine ⟨_, rfl, List.mem_cons_self _ _, fun q hq => ?_⟩
    exact List.mem_cons_of_mem _ ((mem_foldl_addMissing _ _ _).mpr (Or.inl hq))
  · unfold localMkdir osMakedirs osMkdir
    have hp : p ∈ (ancestorChain p).foldl (fun d q2 => if q2 ∈ d then d else q2 :: d) dirs :=
      (mem_foldl_addMissing _ _ _).mpr (Or.inr h)
    simp [hp]
  · unfold localMkdir osMkdir
    simp [h]
  · unfold localMkdir osMkdir
    have hor : ¬ (p.dropLast ∈ dirs ∨ p.dropLast = []) := by tauto
    simp [h, hor]
  · unfold localMkdir osMkdir
    simp [h, h2]

/-- C4 witness: the amended statement applied at concrete states — an
existing target with create_parents=false, and a missing parent with
create_parents=false. -/
theorem localMkdir_spec_witness :
    localMkdir [["a"]] ["a"] false = .error .fileExists ∧
    localMkdir [] ["a", "b"] false = .error .fileNotFound :=
  ⟨(localMkdir_spec [["a"]] ["a"]).2.2.1 (by decide),
   (localMkdir_spec [] ["a", "b"]).2.2.2.1 (by decide) (by decide) (by decide)⟩

/- ===== C9: lemmas about the tree model ===== -/

theorem lookup_append (a : List String) :
    ∀ (n : FNode) (b : List String),
      lookup n (a ++ b) = (lookup n a).bind (fun m => lookup m b) := by
  induction a with
  | nil => intro n b; simp [lookup]
  | cons nm rest ih =>
    intro n b
    cases n with
    | file s => simp [lookup]
    | dir cs =>
      simp only [List.cons_append, lookup]
      cases findChild cs nm with
      | none => simp
      | some c => simp [ih]

theorem findChild_eq_of_mem {cs : List (String × FNode)} {nm : String} {c : FNode}
    (hnd : (cs.map Prod.fst).Nodup) (hmem : (nm, c) ∈ cs) :
    findChild cs nm = some c := by
  induction cs with
  | nil => cases hmem
  | cons hd rest ih =>
    obtain ⟨n, c2⟩ := hd
    simp only [List.map_cons, List.nodup_cons] at hnd
    rcases List.mem_cons.mp hmem with he | he
    · injection he with h1 h2
      subst h1; subst h2
      simp [findChild]
    · have hne : n ≠ nm := by
        intro he2
        subst he2
        exact hnd.1 (List.mem_map.mpr ⟨(n, c), he, rfl⟩)
      simp only [findChild, if_neg hne]
      exact ih hnd.2 he

theorem findChild_mem {cs : List (String × FNode)} {nm : String} {c : FNode}
    (h : findChild cs nm = some c) : (nm, c) ∈ cs := by
  induction cs with
  | nil => simp [findChild] at h
  | cons hd rest ih =>
    obtain ⟨n, c2⟩ := hd
    by_cases hn : n = nm
    · subst hn
      simp [findChild] at h
      subst h
      exact List.mem_cons_self _ _
    · simp only [findChild, if_neg hn] at h
      exact List.mem_cons_of_mem _ (ih h)

theorem wfChildren_mem {cs : List (String × FNode)} {nm : String} {c : FNode}
    (hwf : wfChildren cs = true) (hmem : (nm, c) ∈ cs) : wfNode c = true := by
  induction cs with
  | nil => cases hmem
  | cons hd rest ih =>
    obtain ⟨n, c2⟩ := hd
    simp only [wfChildren, Bool.and_eq_true] at hwf
    rcases List.mem_cons.mp hmem with he | he
    · injection he with h1 h2
      subst h2
      exact hwf.1
    · exact ih hwf.2 he

theorem wfNode_lookup {root m : FNode} {p : List String}
    (hwf : wfNode root = true) (hl : lookup root p = some m) : wfNode m = true := by
  induction p generalizing root with
  | nil =>
    simp only [lookup, Option.some.injEq] at hl
    subst hl
    exact hwf
  | cons nm rest ih =>
    cases root with
    | file s => simp [lookup] at hl
    | dir cs =>
      simp only [lookup] at hl
      cases hfc : findChild cs nm with
      | none => rw [hfc] at hl; cases hl
      | some c =>
        rw [hfc] at hl
        have hwfc : wfChildren cs = true := by
          simp only [wfNode, Bool.and_eq_true] at hwf
          exact hwf.2
        exact ih (wfChildren_mem hwfc (findChild_mem hfc)) hl

theorem sumFileSizes_add_sumDirSizes (cs : List (String × FNode)) :
    sumFileSizes cs + sumDirSizes cs = treeSizeList cs := by
  induction cs with
  | nil => rfl
  | cons hd rest ih =>
    obtain ⟨nm, c⟩ := hd
    cases c with
    | file s =>
      simp only [sumFileSizes, sumDirSizes, treeSizeList, dirSize, treeSize]
      omega
    | dir cs2 =>
      simp only [sumFileSizes, sumDirSizes, treeSizeList, dirSize, treeSize]
      omega

theorem duOuter_append {π : Type} (fs : GenFS π)
    (l₁ l₂ : List (π × List String × List String)) (t : Nat) :
    duOuter fs (l₁ ++ l₂) t = (duOuter fs l₁ t).bind (fun t2 => duOuter fs l₂ t2) := by
  unfold duOuter
  rw [List.foldlM_append]
  rfl

theorem duInner_files {root : FNode} (q : List String) (cs : List (String × FNode))
    (h : ∀ nm c, (nm, c) ∈ cs → lookup root (q ++ [nm]) = some c) :
    ∀ t : Nat, duInner (treeFS root) q (childFileNames cs) t = some (t + sumFileSizes cs) := by
  induction cs with
  | nil => intro t; simp [duInner, childFileNames, sumFileSizes]
  | cons hd rest ih =>
    intro t
    obtain ⟨nm, c⟩ := hd
    have hrest : ∀ nm2 c2, (nm2, c2) ∈ rest → lookup root (q ++ [nm2]) = some c2 :=
      fun nm2 c2 hm => h nm2 c2 (List.mem_cons_of_mem _ hm)
    cases c with
    | file s =>
      have hstat : (treeFS root).stat (q ++ [nm]) = some ⟨"file", s⟩ := by
        simp [treeFS, h nm (.file s) (List.mem_cons_self _ _), statOf]
      have hnames : childFileNames ((nm, FNode.file s) :: rest) = nm :: childFileNames rest := by
        simp [childFileNames, List.filter_cons, isDirNode]
      rw [hnames]
      unfold duInner
      rw [List.foldlM_cons]
      have hstep : ((treeFS root).stat ((treeFS root).path_join q nm)).map
          (fun st => t + st.size) = some (t + s) := by
        simp only [treeFS] at hstat ⊢
        rw [hstat]
        rfl
      rw [hstep]
      show duInner (treeFS root) q (childFileNames rest) (t + s) = _
      rw [ih hrest (t + s)]
      have : t + s + sumFileSizes rest = t + sumFileSizes ((nm, FNode.file s) :: rest) := by
        simp only [sumFileSizes]
        omega
      rw [this]
    | dir cs2 =>
      have hnames : childFileNames ((nm, FNode.dir cs2) :: rest) = childFileNames rest := by
        simp [childFileNames, List.filter_cons, isDirNode]
      rw [hnames, ih hrest t]
      simp only [sumFileSizes]

/- ===== C9: the walk fold computes the subtree file total ===== -/

mutual

theorem duOuter_walkNode (root : FNode) (hwf : wfNode root = true)
    (q : List String) (m : FNode) (hl : lookup root q = some m) (t : Nat) :
    duOuter (treeFS root) (walkNode q m) t = some (t + dirSize m) := by
  cases m with
  | file s => simp [walkNode, duOuter, dirSize]
  | dir cs =>
    have hwfm : wfNode (.dir cs) = true := wfNode_lookup hwf hl
    have hnd : (cs.map Prod.fst).Nodup := by
      simp only [wfNode, Bool.and_eq_true, decide_eq_true_eq] at hwfm
      exact hwfm.1
    have hwfc : wfChildren cs = true := by
      simp only [wfNode, Bool.and_eq_true] at hwfm
      exact hwfm.2
    have hchild : ∀ nm c, (nm, c) ∈ cs → lookup root (q ++ [nm]) = some c := by
      intro nm c hm
      rw [lookup_append, hl]
      show lookup (.dir cs) [nm] = some c
      simp [lookup, findChild_eq_of_mem hnd hm]
    have hchild2 : ∀ nm c, (nm, c) ∈ cs →
        lookup root (q ++ [nm]) = some c ∧ wfNode c = true :=
      fun nm c hm => ⟨hchild nm c hm, wfChildren_mem hwfc hm⟩
    show duOuter (treeFS root)
      ((q, childDirNames cs, childFileNames cs) :: walkChildren q cs) t = _
    unfold duOuter
    rw [List.foldlM_cons]
    have h1 : duInner (treeFS root) q (childFileNames cs) t = some (t + sumFileSizes cs) :=
      duInner_files q cs hchild t
    show (duInner (treeFS root) q (childFileNames cs) t).bind _ = _
    rw [h1]
    show duOuter (treeFS root) (walkChildren q cs) (t + sumFileSizes cs) = _
    rw [duOuter_walkChildren root hwf q cs hchild2 (t + sumFileSizes cs)]
    have hsum := sumFileSizes_add_sumDirSizes cs
    have : t + sumFileSizes cs + sumDirSizes cs = t + dirSize (.dir cs) := by
      simp only [dirSize]
      omega
    rw [this]

theorem duOuter_walkChildren (root : FNode) (hwf : wfNode root = true)
    (q : List String) (cs : List (String × FNode))
    (h : ∀ nm c, (nm, c) ∈ cs → lookup root (q ++ [nm]) = some c ∧ wfNode c = true)
    (t : Nat) :
    duOuter (treeFS root) (walkChildren q cs) t = some (t + sumDirSizes cs) := by
  cases cs with
  | nil => simp [walkChildren, duOuter, sumDirSizes]
  | cons hd rest =>
    obtain ⟨nm, c⟩ := hd
    show duOuter (treeFS root) (walkNode (q ++ [nm]) c ++ walkChildren q rest) t = _
    rw [duOuter_append]
    rw [duOuter_walkNode root hwf (q ++ [nm]) c (h nm c (List.mem_cons_self _ _)).1 t]
    show duOuter (treeFS root) (walkChildren q rest) (t + dirSize c) = _
    have hrest : ∀ nm2 c2, (nm2, c2) ∈ rest →
        lookup root (q ++ [nm2]) = some c2 ∧ wfNode c2 = true :=
      fun nm2 c2 hm => h nm2 c2 (List.mem_cons_of_mem _ hm)
    rw [duOuter_walkChildren root hwf q rest hrest (t + dirSize c)]
    have : t + dirSize c + sumDirSizes rest = t + sumDirSizes ((nm, c) :: rest) := by
      simp only [sumDirSizes]
      omega
    rw [this]

end

/- ===== C9 ===== -/

/-- C9: over a well-formed host tree, the default FileSystem.disk_usage
of any existing path equals the stat size when the path is a file and
the sum of the stat sizes of every file in the path's recursive
subtree — directories contributing zero — when it is a directory:
both cases are the subtree file total treeSize. -/
theorem disk_usage_eq_treeSize (root : FNode) (p : List String) (n : FNode)
    (hwf : wfNode root = true) (hl : lookup root p = some n) :
    (treeFS root).disk_usage p = some (treeSize n) := by
  unfold GenFS.disk_usage
  have hstat : (treeFS root).stat p = some (statOf n) := by
    simp [treeFS, hl]
  rw [hstat]
  cases n with
  | file s =>
    simp [statOf, treeSize]
  | dir cs =>
    have hwalk : (treeFS root).walk p = walkNode p (.dir cs) := by
      simp [treeFS, hl]
    show (if (statOf (.dir cs)).kind = "file" then pure (statOf (.dir cs)).size
      else duOuter (treeFS root) ((treeFS root).walk p) 0) = _
    rw [if_neg (by simp [statOf])]
    rw [hwalk]
    have := duOuter_walkNode root hwf p (.dir cs) hl 0
    simpa [dirSize, treeSize] using this

/-- C9 witness: disk_usage of the demo tree's root equals the total
size of the files in its subtree. -/
theorem disk_usage_eq_treeSize_witness :
    (treeFS demoTree).disk_usage [] = some (treeSize demoTree) :=
  disk_usage_eq_treeSize demoTree [] demoTree (by decide) rfl
